import Mathlib

set_option maxRecDepth 8000

/-!
Verification of the handy-simulator core: a shallow embedding of the
heuristic protobuf command decoder (`parse_linear_cmd_from_protobuf`,
`decode_varint`) and of the movement model (`start_movement`,
`update_position`) of `handy-simulator.py`, together with theorems about
the decoder's scanning behaviour, the movement model's interpolation, and
the reachable-state invariants.

Real-valued quantities of the program (positions, times, speeds and the
values of decoded IEEE-754 doubles) are embedded as exact rationals `ℚ`;
byte buffers are lists of `Fin 256`.
-/

/-- A byte of the payload. -/
abbrev Byte := Fin 256

/-- Exact rational value of `2 ^ e` for an integer exponent. -/
def pow2 (e : ℤ) : ℚ :=
  if 0 ≤ e then ((2 ^ e.toNat : ℕ) : ℚ) else ((2 ^ (-e).toNat : ℕ) : ℚ)⁻¹

/-- Combine a byte list little-endian into a natural number
(the bit pattern that `struct.unpack` with format string given by
a less-than sign and a d reads). -/
def leBits (bs : List Byte) : ℕ :=
  bs.foldr (fun b acc => b.val + 256 * acc) 0

/-- Exact value of an IEEE-754 binary64 bit pattern, as a rational.
`none` stands for NaN and the infinities, whose comparison with `0.0`
and `1.0` in the source never succeeds. -/
def doubleOfBits (bits : ℕ) : Option ℚ :=
  let sign : ℕ := bits / 2 ^ 63
  let expF : ℕ := (bits / 2 ^ 52) % 2 ^ 11
  let frac : ℕ := bits % 2 ^ 52
  if expF = 2047 then none
  else
    let mag : ℚ :=
      if expF = 0 then (frac : ℚ) * pow2 (-1074)
      else ((2 ^ 52 + frac : ℕ) : ℚ) * pow2 ((expF : ℤ) - 1075)
    some (if sign = 1 then -mag else mag)

/-- `struct.unpack` of a little-endian double: raises (here `none`) unless
given exactly 8 bytes. -/
def struct_unpack_d (bs : List Byte) : Option ℚ :=
  if bs.length = 8 then doubleOfBits (leBits bs) else none

/-- The 8-byte window of `data` starting at offset `i`, decoded as a
little-endian double (the source's `struct.unpack` applied to
`data[i:i+8]`). -/
def wval (data : List Byte) (i : ℕ) : Option ℚ :=
  struct_unpack_d ((data.drop i).take 8)

/-- The offsets tried by the position loop, in the order Python's
`range(len(data) - 7, -1, -1)` yields them: `len - 7` down to `0`. -/
def posOffsets (n : ℕ) : List ℕ := (List.range (n - 6)).reverse

/-- The position-recovery loop of `parse_linear_cmd_from_protobuf`:
try each offset in turn, accept the first window whose double value lies
in `[0, 1]`; unpack failures are swallowed by the bare `except`. -/
def posLoop (data : List Byte) : List ℕ → Option ℚ
  | [] => none
  | i :: rest =>
    match wval data i with
    | some v => if 0 ≤ v ∧ v ≤ 1 then some v else posLoop data rest
    | none => posLoop data rest

/-- Position recovery over the whole buffer. -/
def findPosition (data : List Byte) : Option ℚ :=
  posLoop data (posOffsets data.length)

/-- Loop body of `decode_varint`: `result`, `shift`, `consumed` as in the
source; `Except.error` models the `ValueError` raised when the shift
exceeds 63. -/
def decodeVarintGo : List Byte → ℕ → ℕ → ℕ → Except Unit (ℕ × ℕ)
  | [], result, _, consumed => Except.ok (result, consumed)
  | b :: rest, result, shift, consumed =>
    let result2 := result ||| ((b.val % 128) <<< shift)
    if b.val < 128 then Except.ok (result2, consumed + 1)
    else if 63 < shift + 7 then Except.error ()
    else decodeVarintGo rest result2 (shift + 7) (consumed + 1)

/-- `decode_varint(data, offset)`: decode a little-endian base-128 varint
starting at `offset`; returns `(value, bytes_consumed)` or an error for an
over-long varint. -/
def decode_varint (data : List Byte) (offset : ℕ) : Except Unit (ℕ × ℕ) :=
  decodeVarintGo (data.drop offset) 0 0 0

/-- The duration candidate at index `i`: `some d` when `data[i]` is the
sentinel `0x10` and the varint decoded from `i + 1` succeeds with a value
in `[10, 10000]`, otherwise `none` (a malformed varint or an out-of-range
value fails only this candidate). -/
def durCandidate (data : List Byte) (i : ℕ) : Option ℕ :=
  if data.getD i 0 = 0x10 then
    match decode_varint data (i + 1) with
    | Except.ok (dur, _) => if 10 ≤ dur ∧ dur ≤ 10000 then some dur else none
    | Except.error _ => none
  else none

/-- The duration-recovery loop of `parse_linear_cmd_from_protobuf`:
scan the given indices in order, accept the first sentinel-marked varint
whose value lies in `[10, 10000]`; `decode_varint` errors are swallowed by
the `except` around that candidate. -/
def durLoop (data : List Byte) : List ℕ → Option ℕ
  | [] => none
  | i :: rest =>
    if data.getD i 0 = 0x10 then
      match decode_varint data (i + 1) with
      | Except.ok (dur, _) =>
        if 10 ≤ dur ∧ dur ≤ 10000 then some dur else durLoop data rest
      | Except.error _ => durLoop data rest
    else durLoop data rest

/-- Duration recovery over the indices Python's `range(len(data) - 2)`
yields: `0` up to `len - 3`. -/
def findDuration (data : List Byte) : Option ℕ :=
  durLoop data (List.range (data.length - 2))

/-- A decoded movement command. -/
structure Command where
  position : ℚ
  duration_ms : ℕ
deriving DecidableEq

/-- `parse_linear_cmd_from_protobuf`: position recovery is mandatory,
duration falls back to 500 (via Python truthiness `duration if duration
else 500`). Returns `none` when no position is recovered. -/
def parse_linear_cmd_from_protobuf (data : List Byte) : Option Command :=
  match findPosition data with
  | some p =>
    some { position := p,
           duration_ms :=
             match findDuration data with
             | some d => if d = 0 then 500 else d
             | none => 500 }
  | none => none

/-- An ongoing movement (`Movement` dataclass of the source). -/
structure Movement where
  start_position : ℚ
  target_position : ℚ
  duration_ms : ℤ
  start_time_ms : ℚ
  is_active : Bool
deriving DecidableEq

/-- The position state of `HandySimulator`. -/
structure SimState where
  current_position : ℚ
  target_position : ℚ
  current_movement : Option Movement
  speed_mms : ℚ
deriving DecidableEq

/-- Initial state set by `HandySimulator.__init__`: idle at centre. -/
def initState : SimState :=
  { current_position := 1/2
    target_position := 1/2
    current_movement := none
    speed_mms := 0 }

/-- `HandySimulator.start_movement`: clamp the position into `[0, 1]`,
floor the duration at 10 ms, compute the speed over a 125 mm stroke, and
unconditionally install a fresh movement starting from the current
position at time `now`. -/
def start_movement (s : SimState) (position : ℚ) (duration_ms : ℤ) (now : ℚ) : SimState :=
  let pos := max 0 (min 1 position)
  let dur := max 10 duration_ms
  let distance := |pos - s.current_position|
  let speed := if 1/1000 < distance then (distance * 125) / ((dur : ℚ) / 1000) else 0
  { current_position := s.current_position
    target_position := pos
    current_movement := some
      { start_position := s.current_position
        target_position := pos
        duration_ms := dur
        start_time_ms := now
        is_active := true }
    speed_mms := speed }

/-- `HandySimulator.update_position` at clock value `now`: snap to the
target and clear the movement once the duration has elapsed, otherwise
linearly interpolate; a state with no active movement is left unchanged. -/
def update_position (s : SimState) (now : ℚ) : SimState :=
  match s.current_movement with
  | some movement =>
    if movement.is_active then
      let elapsed := now - movement.start_time_ms
      if (movement.duration_ms : ℚ) ≤ elapsed then
        { s with current_position := movement.target_position
                 speed_mms := 0
                 current_movement := none }
      else
        { s with current_position :=
            movement.start_position +
              (movement.target_position - movement.start_position) *
                (elapsed / (movement.duration_ms : ℚ)) }
    else s
  | none => s

/-- An operation applied to the model: a decoded command arriving, or a
physics tick. -/
inductive Op where
  | start (position : ℚ) (duration_ms : ℤ)
  | tick
deriving DecidableEq

/-- Apply one timestamped operation. -/
def applyOp (s : SimState) : ℚ × Op → SimState
  | (t, Op.start p d) => start_movement s p d t
  | (t, Op.tick) => update_position s t

/-- Run a timestamped operation sequence from a state. -/
def runOps (s : SimState) (l : List (ℚ × Op)) : SimState := l.foldl applyOp s

/-- The clock values of an operation sequence are non-decreasing, starting
from `t`. -/
def TimesMono : ℚ → List (ℚ × Op) → Bool
  | _, [] => true
  | t, (u, _) :: rest => decide (t ≤ u) && TimesMono u rest

/-- Inductive invariant of the movement model at clock value `t`. -/
def MInv (s : SimState) (t : ℚ) : Prop :=
  0 ≤ s.current_position ∧ s.current_position ≤ 1 ∧
  0 ≤ s.target_position ∧ s.target_position ≤ 1 ∧
  (s.current_movement = none → s.current_position = s.target_position) ∧
  ∀ m, s.current_movement = some m →
    m.is_active = true ∧
    0 ≤ m.start_position ∧ m.start_position ≤ 1 ∧
    m.target_position = s.target_position ∧
    10 ≤ m.duration_ms ∧
    m.start_time_ms ≤ t

/-- Concrete payload: the little-endian double 0.5 alone. -/
def bufHalf : List Byte := [0, 0, 0, 0, 0, 0, 0xE0, 0x3F]

/-- Concrete payload: eight zero bytes, the little-endian double 0.0. -/
def bufZero : List Byte := List.replicate 8 0

/-- Concrete 9-byte payload: the double 0.5 followed by one extra byte
0x3F, so the unaligned window at offset 1 also decodes into `[0, 1]`. -/
def buf9 : List Byte := [0, 0, 0, 0, 0, 0, 0xE0, 0x3F, 0x3F]

/-- Concrete 10-byte payload: the double 0.5 followed by the sentinel
0x10 at index 8 and the one-byte varint 100 at index 9. -/
def buf10 : List Byte := [0, 0, 0, 0, 0, 0, 0xE0, 0x3F, 0x10, 0x64]

/-- Concrete payload: a sentinel followed by ten continuation bytes, an
over-long varint. -/
def bufBad : List Byte := 0x10 :: List.replicate 10 0x80

/-- Concrete payload shorter than 8 bytes that still contains a sentinel
and an in-range varint. -/
def bufShort : List Byte := [0x10, 0x64]

/-- Concrete 16-byte payload: eight 0xFF bytes (a NaN window) followed by
the little-endian double 0.75. -/
def buf16 : List Byte :=
  List.replicate 8 0xFF ++ [0, 0, 0, 0, 0, 0, 0xE8, 0x3F]

/-- Concrete operation sequence: one command, one mid-movement tick, one
tick after the duration has elapsed. -/
def opsW : List (ℚ × Op) := [(0, Op.start (9/10) 100), (50, Op.tick), (200, Op.tick)]

lemma wval_none_of_short (data : List Byte) (i : ℕ) (h : data.length < i + 8) :
    wval data i = none := by
  simp only [wval, struct_unpack_d, List.length_take, List.length_drop]
  rw [if_neg (by omega)]

lemma posLoop_cons_none {data : List Byte} {i : ℕ} (l : List ℕ)
    (h : wval data i = none) : posLoop data (i :: l) = posLoop data l := by
  simp [posLoop, h]

lemma posLoop_cons_accept {data : List Byte} {i : ℕ} {v : ℚ} (l : List ℕ)
    (h : wval data i = some v) (hv : 0 ≤ v ∧ v ≤ 1) :
    posLoop data (i :: l) = some v := by
  simp [posLoop, h, hv]

lemma posLoop_cons_reject {data : List Byte} {i : ℕ} {v : ℚ} (l : List ℕ)
    (h : wval data i = some v) (hv : ¬(0 ≤ v ∧ v ≤ 1)) :
    posLoop data (i :: l) = posLoop data l := by
  simp [posLoop, h, hv]

lemma posLoop_of_all_reject (data : List Byte)
    (h : ∀ i v, wval data i = some v → ¬(0 ≤ v ∧ v ≤ 1)) :
    ∀ l, posLoop data l = none := by
  intro l
  induction l with
  | nil => rfl
  | cons i rest ih =>
    cases hw : wval data i with
    | none => rw [posLoop_cons_none rest hw]; exact ih
    | some w => rw [posLoop_cons_reject rest hw (h i w hw)]; exact ih

lemma posLoop_range (data : List Byte) :
    ∀ (l : List ℕ) (v : ℚ), posLoop data l = some v → 0 ≤ v ∧ v ≤ 1 := by
  intro l
  induction l with
  | nil => intro v h; cases h
  | cons i rest ih =>
    intro v h
    cases hw : wval data i with
    | none => rw [posLoop_cons_none rest hw] at h; exact ih v h
    | some w =>
      by_cases hc : 0 ≤ w ∧ w ≤ 1
      · rw [posLoop_cons_accept rest hw hc] at h; cases h; exact hc
      · rw [posLoop_cons_reject rest hw hc] at h; exact ih v h

lemma posOffsets_decomp (n : ℕ) (h : 8 ≤ n) :
    posOffsets n = (n - 7) :: (n - 8) :: (List.range (n - 8)).reverse := by
  unfold posOffsets
  have h2 : n - 6 = (n - 8) + 1 + 1 := by omega
  have h3 : (n - 8) + 1 = n - 7 := by omega
  rw [h2, List.range_succ, List.range_succ, List.reverse_append, List.reverse_append, h3]
  simp

lemma durLoop_cons_nosent {data : List Byte} {i : ℕ} (l : List ℕ)
    (hs : ¬(data.getD i 0 = 0x10)) : durLoop data (i :: l) = durLoop data l := by
  simp only [List.getD_eq_getElem?_getD] at hs
  simp [durLoop, hs]

lemma durLoop_cons_err {data : List Byte} {i : ℕ} (l : List ℕ)
    (hs : data.getD i 0 = 0x10) (hv : decode_varint data (i + 1) = Except.error ()) :
    durLoop data (i :: l) = durLoop data l := by
  simp only [List.getD_eq_getElem?_getD] at hs
  simp [durLoop, hs, hv]

lemma durLoop_cons_ok_accept {data : List Byte} {i d c : ℕ} (l : List ℕ)
    (hs : data.getD i 0 = 0x10) (hv : decode_varint data (i + 1) = Except.ok (d, c))
    (hr : 10 ≤ d ∧ d ≤ 10000) : durLoop data (i :: l) = some d := by
  simp only [List.getD_eq_getElem?_getD] at hs
  simp [durLoop, hs, hv, hr]

lemma durLoop_cons_ok_reject {data : List Byte} {i d c : ℕ} (l : List ℕ)
    (hs : data.getD i 0 = 0x10) (hv : decode_varint data (i + 1) = Except.ok (d, c))
    (hr : ¬(10 ≤ d ∧ d ≤ 10000)) : durLoop data (i :: l) = durLoop data l := by
  simp only [List.getD_eq_getElem?_getD] at hs
  simp [durLoop, hs, hv, hr]

lemma durLoop_range (data : List Byte) :
    ∀ (l : List ℕ) (d : ℕ), durLoop data l = some d → 10 ≤ d ∧ d ≤ 10000 := by
  intro l
  induction l with
  | nil => intro d h; cases h
  | cons i rest ih =>
    intro d h
    by_cases hs : data.getD i 0 = 0x10
    · cases hv : decode_varint data (i + 1) with
      | error e =>
        obtain rfl : e = () := rfl
        rw [durLoop_cons_err rest hs hv] at h; exact ih d h
      | ok p =>
        obtain ⟨d0, c0⟩ := p
        by_cases hr : 10 ≤ d0 ∧ d0 ≤ 10000
        · rw [durLoop_cons_ok_accept rest hs hv hr] at h; cases h; exact hr
        · rw [durLoop_cons_ok_reject rest hs hv hr] at h; exact ih d h
    · rw [durLoop_cons_nosent rest hs] at h; exact ih d h

lemma durLoop_eq_findSome (data : List Byte) :
    ∀ l : List ℕ, durLoop data l = l.findSome? (durCandidate data) := by
  intro l
  induction l with
  | nil => rfl
  | cons i rest ih =>
    by_cases hs : data.getD i 0 = 0x10
    · cases hv : decode_varint data (i + 1) with
      | error e =>
        obtain rfl : e = () := rfl
        rw [durLoop_cons_err rest hs hv, ih]
        have hc : durCandidate data i = none := by
          simp only [List.getD_eq_getElem?_getD] at hs
          simp [durCandidate, hs, hv]
        rw [List.findSome?_cons_of_isNone _ (by simp [hc])]
      | ok p =>
        obtain ⟨d, c⟩ := p
        by_cases hr : 10 ≤ d ∧ d ≤ 10000
        · rw [durLoop_cons_ok_accept rest hs hv hr]
          have hc : durCandidate data i = some d := by
            simp only [List.getD_eq_getElem?_getD] at hs
            simp [durCandidate, hs, hv, hr]
          rw [List.findSome?_cons_of_isSome _ (by simp [hc]), hc]
        · rw [durLoop_cons_ok_reject rest hs hv hr, ih]
          have hc : durCandidate data i = none := by
            simp only [List.getD_eq_getElem?_getD] at hs
            simp [durCandidate, hs, hv, hr]
          rw [List.findSome?_cons_of_isNone _ (by simp [hc])]
    · rw [durLoop_cons_nosent rest hs, ih]
      have hc : durCandidate data i = none := by
        simp only [List.getD_eq_getElem?_getD] at hs
        simp [durCandidate, hs]
      rw [List.findSome?_cons_of_isNone _ (by simp [hc])]

lemma MInv_mono {s : SimState} {t t' : ℚ} (h : MInv s t) (htt : t ≤ t') : MInv s t' := by
  obtain ⟨h1, h2, h3, h4, h5, h6⟩ := h
  refine ⟨h1, h2, h3, h4, h5, fun m hm => ?_⟩
  obtain ⟨a1, a2, a3, a4, a5, a6⟩ := h6 m hm
  exact ⟨a1, a2, a3, a4, a5, le_trans a6 htt⟩

lemma initState_MInv (t : ℚ) : MInv initState t := by
  refine ⟨by norm_num [initState], by norm_num [initState], by norm_num [initState],
    by norm_num [initState], fun _ => rfl, fun m hm => ?_⟩
  cases hm

lemma start_movement_MInv {s : SimState} {t : ℚ} (h : MInv s t)
    (p : ℚ) (d : ℤ) (t' : ℚ) : MInv (start_movement s p d t') t' := by
  obtain ⟨h1, h2, h3, h4, h5, h6⟩ := h
  refine ⟨h1, h2, le_max_left 0 _, max_le zero_le_one (min_le_left 1 p), ?_, ?_⟩
  · intro hn; cases hn
  · intro m hm
    obtain rfl : ({ start_position := s.current_position
                    target_position := max 0 (min 1 p)
                    duration_ms := max 10 d
                    start_time_ms := t'
                    is_active := true } : Movement) = m := Option.some.inj hm
    exact ⟨rfl, h1, h2, rfl, le_max_left 10 d, le_refl t'⟩

lemma update_position_MInv {s : SimState} {t t' : ℚ} (h : MInv s t) (htt : t ≤ t') :
    MInv (update_position s t') t' := by
  obtain ⟨h1, h2, h3, h4, h5, h6⟩ := h
  cases hm : s.current_movement with
  | none =>
    have hupd : update_position s t' = s := by simp [update_position, hm]
    rw [hupd]
    exact MInv_mono ⟨h1, h2, h3, h4, h5, h6⟩ htt
  | some m =>
    obtain ⟨hact, hs0, hs1, hteq, hdur, htime⟩ := h6 m hm
    have hdurQ : (10 : ℚ) ≤ (m.duration_ms : ℚ) := by exact_mod_cast hdur
    have hdpos : (0 : ℚ) < (m.duration_ms : ℚ) := by linarith
    by_cases hel : (m.duration_ms : ℚ) ≤ t' - m.start_time_ms
    · have hupd : update_position s t' =
          { s with current_position := m.target_position
                   speed_mms := 0
                   current_movement := none } := by
        simp [update_position, hm, hact, hel]
      rw [hupd]
      refine ⟨hteq ▸ h3, hteq ▸ h4, h3, h4, fun _ => hteq, fun m' hm' => ?_⟩
      cases hm'
    · have hlt : t' - m.start_time_ms < (m.duration_ms : ℚ) := not_le.mp hel
      have he0 : (0 : ℚ) ≤ t' - m.start_time_ms := by
        have := le_trans htime htt
        linarith
      have hupd : update_position s t' =
          { s with current_position :=
              m.start_position + (m.target_position - m.start_position) *
                ((t' - m.start_time_ms) / (m.duration_ms : ℚ)) } := by
        simp [update_position, hm, hact, hel]
      set r : ℚ := (t' - m.start_time_ms) / (m.duration_ms : ℚ) with hr
      have hr0 : 0 ≤ r := div_nonneg he0 hdpos.le
      have hr1 : r ≤ 1 := (div_le_one hdpos).mpr hlt.le
      have ht0 : 0 ≤ m.target_position := hteq ▸ h3
      have ht1 : m.target_position ≤ 1 := hteq ▸ h4
      rw [hupd]
      refine ⟨?_, ?_, h3, h4, ?_, ?_⟩
      · show 0 ≤ m.start_position + (m.target_position - m.start_position) * r
        nlinarith [mul_nonneg hr0 ht0, mul_nonneg (sub_nonneg.mpr hr1) hs0]
      · show m.start_position + (m.target_position - m.start_position) * r ≤ 1
        nlinarith [mul_nonneg (sub_nonneg.mpr hr1) (sub_nonneg.mpr hs1),
          mul_nonneg hr0 (sub_nonneg.mpr ht1)]
      · intro hcontra
        have : s.current_movement = none := hcontra
        rw [hm] at this
        cases this
      · intro m' hm'
        have hsm : s.current_movement = some m' := hm'
        rw [hm] at hsm
        obtain rfl : m = m' := Option.some.inj hsm
        exact ⟨hact, hs0, hs1, hteq, hdur, le_trans htime htt⟩

lemma runOps_MInv :
    ∀ (l : List (ℚ × Op)) (s : SimState) (t : ℚ),
      MInv s t → TimesMono t l = true → ∃ u, MInv (runOps s l) u := by
  intro l
  induction l with
  | nil => exact fun s t h _ => ⟨t, h⟩
  | cons a rest ih =>
    rintro s t h hmono
    obtain ⟨u, op⟩ := a
    have hmono2 : (decide (t ≤ u) && TimesMono u rest) = true := hmono
    rw [Bool.and_eq_true, decide_eq_true_eq] at hmono2
    obtain ⟨htu, hrest⟩ := hmono2
    have hstep : runOps s ((u, op) :: rest) = runOps (applyOp s (u, op)) rest := rfl
    rw [hstep]
    cases op with
    | start p d => exact ih _ u (start_movement_MInv h p d u) hrest
    | tick => exact ih _ u (update_position_MInv h htu) hrest

/-- C1 (counterexample): the position scan is not restricted to
8-byte-aligned offsets. In the 9-byte buffer `buf9` the last 8-byte-aligned
window (offset 0) holds the double 0.5 and no sentinel-marked varint is
present, yet `decode` returns the value of the unaligned window at offset 1,
255/524288, not 0.5. -/
theorem claim_C1_counterexample :
    struct_unpack_d (buf9.take 8) = some (1/2) ∧
    (0 ≤ (1/2 : ℚ) ∧ (1/2 : ℚ) ≤ 1) ∧
    findDuration buf9 = none ∧
    parse_linear_cmd_from_protobuf buf9 = some ⟨255/524288, 500⟩ ∧
    (255/524288 : ℚ) ≠ 1/2 := by
  refine ⟨by with_unfolding_all rfl, of_decide_eq_true (by with_unfolding_all rfl),
    by decide, by with_unfolding_all rfl, of_decide_eq_true (by with_unfolding_all rfl)⟩

/-- C1 (amended): position recovery examines every byte offset from
`len - 8` down to 0 (the leading `len - 7` probe always fails on a 7-byte
slice), so for any buffer whose last full 8-byte window (offset `len - 8`)
holds a little-endian double in [0, 1] and whose duration scan recovers
nothing, `decode` returns that position with duration 500. -/
theorem claim_C1_amended (data : List Byte) (v : ℚ) (h8 : 8 ≤ data.length)
    (hw : wval data (data.length - 8) = some v) (h0 : 0 ≤ v) (h1 : v ≤ 1)
    (hd : findDuration data = none) :
    parse_linear_cmd_from_protobuf data = some ⟨v, 500⟩ := by
  have hpos : findPosition data = some v := by
    unfold findPosition
    rw [posOffsets_decomp data.length h8]
    rw [posLoop_cons_none _ (wval_none_of_short data (data.length - 7) (by omega))]
    exact posLoop_cons_accept _ hw ⟨h0, h1⟩
  simp [parse_linear_cmd_from_protobuf, hpos, hd]

/-- C1 (witness): the amended theorem applied to the concrete buffer
`buf16`, whose last window holds 0.75. -/
theorem claim_C1_witness :
    parse_linear_cmd_from_protobuf buf16 = some ⟨3/4, 500⟩ :=
  claim_C1_amended buf16 (3/4) (by decide) (by with_unfolding_all rfl) (by norm_num)
    (by norm_num) (by decide)

/-- C2 (counterexample): the duration scan does not examine every
occurrence of the sentinel 0x10. In `buf10` the sentinel sits at index
`len - 2` and its varint decodes to 100, an in-range candidate, yet the
returned Command carries the default duration 500, not 100. -/
theorem claim_C2_counterexample :
    buf10.getD 8 0 = 0x10 ∧
    decode_varint buf10 9 = Except.ok (100, 1) ∧
    findDuration buf10 = none ∧
    (parse_linear_cmd_from_protobuf buf10).map Command.duration_ms = some 500 := by
  refine ⟨by decide, rfl, by decide, by with_unfolding_all rfl⟩

/-- C2 (amended): duration recovery equals the first accepted candidate
over the indices 0 .. `len - 3` only (sentinel occurrences in the last two
positions are never examined); a malformed varint fails only its own
candidate; and when no candidate is accepted but a position was recovered,
a Command with the recovered position and the default duration 500 is
still returned. -/
theorem claim_C2_amended (data : List Byte) :
    findDuration data = (List.range (data.length - 2)).findSome? (durCandidate data) ∧
    (∀ i rest, decode_varint data (i + 1) = Except.error () →
      durLoop data (i :: rest) = durLoop data rest) ∧
    (∀ p, findPosition data = some p → findDuration data = none →
      parse_linear_cmd_from_protobuf data = some ⟨p, 500⟩) := by
  refine ⟨durLoop_eq_findSome data _, ?_, ?_⟩
  · intro i rest hv
    by_cases hs : data.getD i 0 = 0x10
    · exact durLoop_cons_err rest hs hv
    · exact durLoop_cons_nosent rest hs
  · intro p hp hd
    simp [parse_linear_cmd_from_protobuf, hp, hd]

/-- C2 (witness): the amended theorem applied to `bufZero` (default
duration with recovered position 0.0) and to `bufBad` (a malformed varint
candidate is skipped). -/
theorem claim_C2_witness :
    parse_linear_cmd_from_protobuf bufZero = some ⟨0, 500⟩ ∧
    durLoop bufBad [0] = durLoop bufBad [] :=
  ⟨(claim_C2_amended bufZero).2.2 0 (by with_unfolding_all rfl) (by decide),
   (claim_C2_amended bufBad).2.1 0 [] rfl⟩

/-- C3: with an active Movement and `now` at or after its start time, a
tick snaps to the target, zeroes the speed and clears the Movement once
`elapsed >= duration_ms`, and otherwise sets the position by pure linear
interpolation; with no active Movement a tick is a no-op, so repeated
ticks after completion never change the position. -/
theorem claim_C3 (s : SimState) (now : ℚ) :
    (∀ m, s.current_movement = some m → m.is_active = true → m.start_time_ms ≤ now →
      (((m.duration_ms : ℚ) ≤ now - m.start_time_ms →
          update_position s now =
            { s with current_position := m.target_position
                     speed_mms := 0
                     current_movement := none }) ∧
       (now - m.start_time_ms < (m.duration_ms : ℚ) →
          update_position s now =
            { s with current_position :=
                m.start_position + (m.target_position - m.start_position) *
                  ((now - m.start_time_ms) / (m.duration_ms : ℚ)) }))) ∧
    (s.current_movement = none → update_position s now = s) ∧
    (∀ m, s.current_movement = some m → m.is_active = false →
      update_position s now = s) := by
  refine ⟨?_, ?_, ?_⟩
  · intro m hm hact _hnow
    constructor
    · intro hdone
      simp only [update_position, hm, hact, if_true]
      rw [if_pos hdone]
    · intro hrun
      simp only [update_position, hm, hact, if_true]
      rw [if_neg (not_le.mpr hrun)]
  · intro h
    simp [update_position, h]
  · intro m hm hact
    simp [update_position, hm, hact]

/-- C3 (witness): starting from the centre toward 0.9 in 100 ms at time 0,
the tick at time 50 lands mid-interpolation. -/
theorem claim_C3_witness :
    update_position (start_movement initState (9/10) 100 0) 50 =
      { start_movement initState (9/10) 100 0 with
          current_position :=
            (1/2 : ℚ) + (9/10 - 1/2) * ((50 - 0) / ((100 : ℤ) : ℚ)) } :=
  ((claim_C3 (start_movement initState (9/10) 100 0) 50).1
    { start_position := 1/2, target_position := 9/10, duration_ms := 100,
      start_time_ms := 0, is_active := true }
    (by with_unfolding_all rfl) rfl (by norm_num)).2 (by norm_num)

/-- C4: from the initial state (idle at 0.5), any finite sequence of
`start_movement` and tick operations with non-decreasing clock values
keeps `current_position` in [0, 1], and the position equals the target
whenever no movement is active. -/
theorem claim_C4 (t0 : ℚ) (l : List (ℚ × Op)) (h : TimesMono t0 l = true) :
    0 ≤ (runOps initState l).current_position ∧
    (runOps initState l).current_position ≤ 1 ∧
    ((runOps initState l).current_movement = none →
      (runOps initState l).current_position = (runOps initState l).target_position) := by
  obtain ⟨u, hu⟩ := runOps_MInv l initState t0 (initState_MInv t0) h
  exact ⟨hu.1, hu.2.1, hu.2.2.2.2.1⟩

/-- C4 (witness): the invariant theorem applied to the concrete
command-then-two-ticks sequence `opsW`. -/
theorem claim_C4_witness :
    0 ≤ (runOps initState opsW).current_position ∧
    (runOps initState opsW).current_position ≤ 1 ∧
    ((runOps initState opsW).current_movement = none →
      (runOps initState opsW).current_position = (runOps initState opsW).target_position) :=
  claim_C4 0 opsW (by decide)

/-- C5: `start_movement` unconditionally replaces any existing Movement
(for every state, including one with an active Movement) with a fresh one
whose `start_position` is the model's current interpolated position, and
it leaves `current_position` itself unchanged, so motion is continuous. -/
theorem claim_C5 (s : SimState) (p : ℚ) (d : ℤ) (t : ℚ) :
    (start_movement s p d t).current_movement =
      some { start_position := s.current_position
             target_position := max 0 (min 1 p)
             duration_ms := max 10 d
             start_time_ms := t
             is_active := true } ∧
    (start_movement s p d t).current_position = s.current_position :=
  ⟨rfl, rfl⟩

/-- C6: `start_movement` clamps the position into [0, 1] and floors the
duration at 10 ms, never failing; in particular position 1.5 with duration
-10 yields effective target 1.0 and effective duration 10. -/
theorem claim_C6 (s : SimState) (p : ℚ) (d : ℤ) (t : ℚ) :
    (start_movement s p d t).target_position = max 0 (min 1 p) ∧
    0 ≤ (start_movement s p d t).target_position ∧
    (start_movement s p d t).target_position ≤ 1 ∧
    (start_movement s p d t).current_movement.map Movement.duration_ms = some (max 10 d) ∧
    (10 : ℤ) ≤ max 10 d ∧
    (start_movement s (3/2) (-10) t).target_position = 1 ∧
    (start_movement s (3/2) (-10) t).current_movement.map Movement.duration_ms = some 10 := by
  refine ⟨rfl, le_max_left 0 _, max_le zero_le_one (min_le_left 1 p), rfl,
    le_max_left 10 d, ?_, ?_⟩
  · show max 0 (min 1 (3/2 : ℚ)) = 1
    with_unfolding_all rfl
  · show some (max 10 (-10 : ℤ)) = some 10
    decide

/-- C7: `decode` is total over all byte payloads: every internal failure
(short window, malformed varint, out-of-range candidate) degrades to
either no Command or a Command whose position lies in [0, 1] and whose
duration is the default 500 or an accepted value in [10, 10000]. -/
theorem claim_C7 (data : List Byte) :
    parse_linear_cmd_from_protobuf data = none ∨
    ∃ c, parse_linear_cmd_from_protobuf data = some c ∧
      0 ≤ c.position ∧ c.position ≤ 1 ∧
      (c.duration_ms = 500 ∨ (10 ≤ c.duration_ms ∧ c.duration_ms ≤ 10000)) := by
  cases hp : findPosition data with
  | none =>
    left
    simp [parse_linear_cmd_from_protobuf, hp]
  | some p =>
    right
    have hpr := posLoop_range data (posOffsets data.length) p hp
    cases hd : findDuration data with
    | none =>
      exact ⟨⟨p, 500⟩, by simp [parse_linear_cmd_from_protobuf, hp, hd], hpr.1, hpr.2,
        Or.inl rfl⟩
    | some d =>
      have hdr := durLoop_range data (List.range (data.length - 2)) d hd
      have hne : ¬(d = 0) := by omega
      refine ⟨⟨p, d⟩, ?_, hpr.1, hpr.2, Or.inr hdr⟩
      simp [parse_linear_cmd_from_protobuf, hp, hd, hne]

/-- C8: every buffer shorter than 8 bytes decodes to nothing; more
generally, whenever no 8-byte window holds a little-endian double in
[0, 1], position recovery fails and the whole decode returns nothing, even
if a valid duration varint is present. -/
theorem claim_C8 (data : List Byte) :
    (data.length < 8 → parse_linear_cmd_from_protobuf data = none) ∧
    ((∀ i v, wval data i = some v → ¬(0 ≤ v ∧ v ≤ 1)) →
      findPosition data = none ∧ parse_linear_cmd_from_protobuf data = none) := by
  have key : (∀ i v, wval data i = some v → ¬(0 ≤ v ∧ v ≤ 1)) →
      findPosition data = none ∧ parse_linear_cmd_from_protobuf data = none := by
    intro h
    have hp : findPosition data = none := posLoop_of_all_reject data h _
    exact ⟨hp, by simp [parse_linear_cmd_from_protobuf, hp]⟩
  refine ⟨fun hlen => ?_, key⟩
  refine (key fun i v hv => ?_).2
  rw [wval_none_of_short data i (by omega)] at hv
  cases hv

/-- C8 (witness): the theorem applied to the 2-byte buffer `bufShort`,
which contains a sentinel and an in-range varint but no full window. -/
theorem claim_C8_witness :
    parse_linear_cmd_from_protobuf bufShort = none ∧ findPosition bufShort = none := by
  have h := claim_C8 bufShort
  refine ⟨h.1 (by decide), ?_⟩
  refine (h.2 fun i v hv => ?_).1
  rw [wval_none_of_short bufShort i (by rw [show bufShort.length = 2 from rfl]; omega)] at hv
  cases hv

/-- C9 (counterexample): a payload from which only the position is
recoverable still yields a Command. `bufHalf` recovers position 0.5, no
duration candidate exists, yet `decode` returns a Command (with the
default duration 500) instead of nothing. -/
theorem claim_C9_counterexample :
    findPosition bufHalf = some (1/2) ∧ findDuration bufHalf = none ∧
    parse_linear_cmd_from_protobuf bufHalf = some ⟨1/2, 500⟩ := by
  refine ⟨by with_unfolding_all rfl, by decide, by with_unfolding_all rfl⟩

/-- C9 (amended): only the position is mandatory. A payload with no
recoverable position yields no Command even if a duration is recoverable,
while a payload with a recoverable position and no recoverable duration
yields a Command with the default duration 500. -/
theorem claim_C9_amended (data : List Byte) :
    (findPosition data = none → parse_linear_cmd_from_protobuf data = none) ∧
    (∀ p, findPosition data = some p → findDuration data = none →
      parse_linear_cmd_from_protobuf data = some ⟨p, 500⟩) := by
  constructor
  · intro h
    simp [parse_linear_cmd_from_protobuf, h]
  · intro p hp hd
    simp [parse_linear_cmd_from_protobuf, hp, hd]

/-- C9 (witness): the amended theorem applied to the empty buffer and to
`bufHalf`. -/
theorem claim_C9_witness :
    parse_linear_cmd_from_protobuf [] = none ∧
    parse_linear_cmd_from_protobuf bufHalf = some ⟨1/2, 500⟩ :=
  ⟨(claim_C9_amended []).1 rfl,
   (claim_C9_amended bufHalf).2 (1/2) (by with_unfolding_all rfl) (by decide)⟩
